import Mathlib

/-!
# Verification of the bidding application core

A shallow embedding of the bidding application's backend
(`backend/app/services/bid_service.py`, `backend/app/main.py`,
`backend/app/services/stream_processor.py`) together with proofs about it.

Python machine floats are embedded as rationals (`ℚ`); Redis state that the
code touches (the highest-bid record, the history list, the id counter and
the event stream) is embedded as an explicit `Store` record that operations
thread through; fallible Python operations (such as `float(...)` on a
string) become `Option`-valued functions.
-/

attribute [local semireducible] Rat.mul Rat.add Rat.sub Rat.inv

namespace BidApp

/-- Little-endian base-10 digits, by structural recursion on a fuel bound so
that concrete instances evaluate. -/
def digitsAux10 : ℕ → ℕ → List ℕ
  | 0, _ => []
  | fuel + 1, n => if n = 0 then [] else n % 10 :: digitsAux10 fuel (n / 10)

/-- Little-endian base-10 digits of `n` (executable form of `Nat.digits 10`). -/
def digitsLE (n : ℕ) : List ℕ := digitsAux10 n n

theorem digitsAux10_eq (fuel n : ℕ) (h : n ≤ fuel) :
    digitsAux10 fuel n = Nat.digits 10 n := by
  induction fuel generalizing n with
  | zero =>
    have : n = 0 := Nat.le_zero.mp h
    subst this
    simp [digitsAux10]
  | succ fuel ih =>
    unfold digitsAux10
    rcases Nat.eq_zero_or_pos n with h0 | h0
    · subst h0; simp
    · rw [if_neg (Nat.pos_iff_ne_zero.mp h0)]
      have hlt := Nat.div_lt_self h0 (by norm_num : 1 < 10)
      rw [ih (n / 10) (by omega)]
      rw [Nat.digits_def' (by norm_num : (1 : ℕ) < 10) h0]

theorem digitsLE_eq (n : ℕ) : digitsLE n = Nat.digits 10 n :=
  digitsAux10_eq n n le_rfl

/-- One decimal digit rendered as a character (the characters produced by
Python's decimal rendering of numbers). -/
def digitChar (d : ℕ) : Char := Char.ofNat (48 + d)

/-- Numeric value of a decimal digit character. -/
def charVal (c : Char) : ℕ := c.toNat - 48

/-- Big-endian character digits of a natural number: models Python's decimal
rendering of a nonnegative integer (`str(n)`). -/
def natChars (n : ℕ) : List Char :=
  if n = 0 then ['0'] else ((digitsLE n).reverse).map digitChar

theorem digitChar_spec : ∀ d < 10, charVal (digitChar d) = d ∧
    (digitChar d).isDigit = true ∧ digitChar d ≠ '.' ∧ digitChar d ≠ '-' := by
  decide

theorem natChars_ne_nil (n : ℕ) : natChars n ≠ [] := by
  unfold natChars
  split
  · simp
  · next h =>
    have hne : Nat.digits 10 n ≠ [] := Nat.digits_ne_nil_iff_ne_zero.mpr h
    simp [digitsLE_eq, hne]

theorem natChars_digits (n : ℕ) : ∀ c ∈ natChars n, c.isDigit = true := by
  intro c hc
  unfold natChars at hc
  split at hc
  · simp at hc; subst hc; decide
  · simp only [List.mem_map, List.mem_reverse, digitsLE_eq] at hc
    obtain ⟨d, hd, rfl⟩ := hc
    exact ((digitChar_spec d (Nat.digits_lt_base (by norm_num) hd)).2).1

/-- Interpret a big-endian list of digit characters as a natural number (the
accumulation a decimal parser performs). -/
def digitsVal (l : List Char) : ℕ := Nat.ofDigits 10 ((l.map charVal).reverse)

/-- The fractional digit characters of `m / 10 ^ e`: exactly `e` digits,
left-padded with zeros; for `e = 0` Python's `str` on a float still prints a
single zero after the point. -/
def fracChars (m e : ℕ) : List Char :=
  if e = 0 then ['0']
  else ((digitsLE (m % 10 ^ e) ++
    List.replicate (e - (digitsLE (m % 10 ^ e)).length) 0).reverse).map digitChar

/-- Decimal text of the nonnegative value `m / 10 ^ e`, as a character list:
models Python's `str` on such a float (always an integer part, a point and at
least one fractional digit). -/
def decChars (m e : ℕ) : List Char := natChars (m / 10 ^ e) ++ '.' :: fracChars m e

/-- Decimal text of the nonnegative value `m / 10 ^ e` as a string. -/
def decString (m e : ℕ) : String := String.mk (decChars m e)

/-- Body of the float-string parser: integer digits, then optionally a point
and fraction digits; at least one digit overall. -/
def pyFloatCore (l : List Char) : Option ℚ :=
  let ip := l.takeWhile (fun c => decide (c ≠ '.'))
  let rest := l.dropWhile (fun c => decide (c ≠ '.'))
  if ip.all Char.isDigit then
    match rest with
    | [] => if ip.isEmpty then none else some (digitsVal ip : ℚ)
    | _ :: fp =>
      if fp.all Char.isDigit && !(ip.isEmpty && fp.isEmpty) then
        some ((digitsVal ip : ℚ) + (digitsVal fp : ℚ) / 10 ^ fp.length)
      else none
  else none

/-- Model of Python `float(s)` on a string: optional leading minus sign, then
decimal digits with an optional point; `none` models the `ValueError` raised
on text that is not such a decimal numeral. -/
def pyFloatChars (l : List Char) : Option ℚ :=
  if l.head? = some '-' then (pyFloatCore l.tail).map (fun q => -q)
  else pyFloatCore l

/-- Model of Python `float(s)` on a string. -/
def pyFloat (s : String) : Option ℚ := pyFloatChars s.data

theorem digitsVal_map_digitChar (l : List ℕ) (h : ∀ d ∈ l, d < 10) :
    digitsVal ((l.reverse).map digitChar) = Nat.ofDigits 10 l := by
  unfold digitsVal
  rw [List.map_map]
  have h2 : List.map (charVal ∘ digitChar) l.reverse = List.map id l.reverse :=
    List.map_congr_left (fun d hd => (digitChar_spec d (h d (List.mem_reverse.mp hd))).1)
  rw [h2, List.map_id, List.reverse_reverse]

theorem digitsVal_natChars (n : ℕ) : digitsVal (natChars n) = n := by
  unfold natChars
  split
  · next h => subst h; decide
  · next h =>
    rw [digitsLE_eq]
    rw [digitsVal_map_digitChar _ (fun d hd => Nat.digits_lt_base (by norm_num) hd)]
    exact Nat.ofDigits_digits 10 n

theorem ofDigits_replicate_zero (b k : ℕ) : Nat.ofDigits b (List.replicate k 0) = 0 := by
  induction k with
  | zero => simp [Nat.ofDigits]
  | succ k ih => simp [List.replicate_succ, Nat.ofDigits_cons, ih]

theorem digits_len_le_of_lt_pow {r e : ℕ} (h : r < 10 ^ e) :
    (Nat.digits 10 r).length ≤ e := by
  rcases Nat.eq_zero_or_pos r with h0 | h0
  · subst h0; simp
  · have hne : r ≠ 0 := Nat.pos_iff_ne_zero.mp h0
    rw [Nat.digits_len 10 r (by norm_num) hne]
    have := Nat.log_lt_of_lt_pow hne h
    omega

theorem fracChars_digits (m e : ℕ) : ∀ c ∈ fracChars m e, c.isDigit = true := by
  intro c hc
  unfold fracChars at hc
  split at hc
  · simp at hc; subst hc; decide
  · simp only [List.mem_map, List.mem_reverse, List.mem_append, digitsLE_eq] at hc
    obtain ⟨d, hd, rfl⟩ := hc
    have hd10 : d < 10 := by
      rcases hd with hd | hd
      · exact Nat.digits_lt_base (by norm_num) hd
      · have := List.eq_of_mem_replicate hd
        omega
    exact ((digitChar_spec d hd10).2).1

theorem fracChars_spec (m e : ℕ) (he : e ≠ 0) :
    digitsVal (fracChars m e) = m % 10 ^ e ∧ (fracChars m e).length = e := by
  unfold fracChars
  rw [if_neg he, digitsLE_eq]
  have hr : m % 10 ^ e < 10 ^ e := Nat.mod_lt _ (pow_pos (by norm_num) e)
  have hlen : (Nat.digits 10 (m % 10 ^ e)).length ≤ e := digits_len_le_of_lt_pow hr
  constructor
  · rw [digitsVal_map_digitChar]
    · rw [Nat.ofDigits_append, Nat.ofDigits_digits, ofDigits_replicate_zero]
      simp
    · intro d hd
      rcases List.mem_append.mp hd with hd | hd
      · exact Nat.digits_lt_base (by norm_num) hd
      · have := List.eq_of_mem_replicate hd
        omega
  · simp only [List.length_map, List.length_reverse, List.length_append,
      List.length_replicate]
    omega

theorem takeWhile_append_dot (l1 l2 : List Char) (h : ∀ c ∈ l1, c ≠ '.') :
    (l1 ++ '.' :: l2).takeWhile (fun c => decide (c ≠ '.')) = l1 ∧
    (l1 ++ '.' :: l2).dropWhile (fun c => decide (c ≠ '.')) = '.' :: l2 := by
  induction l1 with
  | nil => constructor <;> simp [List.takeWhile_cons, List.dropWhile_cons]
  | cons a t ih =>
    have ha : a ≠ '.' := h a (by simp)
    have ht := ih (fun c hc => h c (by simp [hc]))
    obtain ⟨ht1, ht2⟩ := ht
    simp only [decide_not] at ht1 ht2 ⊢
    constructor
    · simp [List.takeWhile_cons, ha, ht1]
    · simp [List.dropWhile_cons, ha, ht2]

theorem pyFloatCore_decChars (m e : ℕ) :
    pyFloatCore (decChars m e) = some ((m : ℚ) / 10 ^ e) := by
  have hip : ∀ c ∈ natChars (m / 10 ^ e), c ≠ '.' := by
    intro c hc hdot
    have := natChars_digits _ c hc
    rw [hdot] at this
    exact absurd this (by decide)
  obtain ⟨htake, hdrop⟩ := takeWhile_append_dot _ (fracChars m e) hip
  unfold decChars at *
  unfold pyFloatCore
  simp only [htake, hdrop]
  rw [if_pos (List.all_eq_true.mpr (fun c hc => natChars_digits _ c hc))]
  rw [if_pos]
  · rcases Nat.eq_zero_or_pos e with he | he
    · subst he
      have h0 : digitsVal ['0'] = 0 := by decide
      simp only [pow_zero, Nat.div_one, fracChars, if_pos rfl, h0, digitsVal_natChars]
      norm_num
      exact h0
    · have hfs := fracChars_spec m e (Nat.pos_iff_ne_zero.mp he)
      rw [digitsVal_natChars, hfs.1, hfs.2]
      have hm := Nat.div_add_mod m (10 ^ e)
      have hmq : ((10 ^ e * (m / 10 ^ e) + m % 10 ^ e : ℕ) : ℚ) = (m : ℚ) := by
        exact_mod_cast congrArg (fun k : ℕ => (k : ℚ)) hm
      push_cast at hmq
      have hpow : ((10 : ℚ) ^ e) ≠ 0 := by positivity
      field_simp
      linarith [hmq]
  · rw [Bool.and_eq_true]
    constructor
    · exact List.all_eq_true.mpr (fun c hc => fracChars_digits _ _ c hc)
    · simp [List.isEmpty_iff, natChars_ne_nil]

theorem pyFloat_decString (m e : ℕ) :
    pyFloat (decString m e) = some ((m : ℚ) / 10 ^ e) := by
  unfold pyFloat decString pyFloatChars
  show (if (decChars m e).head? = some '-' then _ else _) = _
  have hhead : (decChars m e).head? ≠ some '-' := by
    unfold decChars
    cases hnc : natChars (m / 10 ^ e) with
    | nil => exact absurd hnc (natChars_ne_nil _)
    | cons c cs =>
      simp only [List.cons_append, List.head?_cons]
      intro hcontra
      have hdig := natChars_digits (m / 10 ^ e) c (by rw [hnc]; exact List.mem_cons_self c cs)
      rw [Option.some_inj.mp hcontra] at hdig
      exact absurd hdig (by decide)
  rw [if_neg hhead]
  exact pyFloatCore_decChars m e

/-- Multiplicity worker, structurally recursive on a fuel bound. -/
def pExpAux (p : ℕ) : ℕ → ℕ → ℕ
  | 0, _ => 0
  | fuel + 1, n =>
    if 2 ≤ p ∧ p ∣ n ∧ n ≠ 0 then pExpAux p fuel (n / p) + 1 else 0

/-- Multiplicity of `p` in `n` (used to find the decimal exponent a Python
float prints with). -/
def pExp (p n : ℕ) : ℕ := pExpAux p n n

/-- Number of decimal fraction digits `str` prints for the rational `q`
(enough to clear the powers of 2 and 5 in the denominator). -/
def decExp (q : ℚ) : ℕ := max (pExp 2 q.den) (pExp 5 q.den)

/-- `q` has a finite decimal expansion (true of every Python float, as floats
are dyadic rationals). -/
def isDec (q : ℚ) : Prop := (q * 10 ^ decExp q).den = 1

instance (q : ℚ) : Decidable (isDec q) := by unfold isDec; infer_instance

/-- Model of Python `str` on a float-valued number: sign, integer part, a
point and the decimal fraction digits. On a rational with no finite decimal
expansion (impossible for a float) it falls back to Lean's rendering. -/
def pyStr (q : ℚ) : String :=
  if q < 0 then
    if (-q * 10 ^ decExp (-q)).den = 1 then
      String.mk ('-' :: decChars (-q * 10 ^ decExp (-q)).num.toNat (decExp (-q)))
    else toString q
  else
    if (q * 10 ^ decExp q).den = 1 then
      decString (q * 10 ^ decExp q).num.toNat (decExp q)
    else toString q

theorem pyFloat_pyStr (q : ℚ) (hq : 0 ≤ q) (hd : isDec q) :
    pyFloat (pyStr q) = some q := by
  unfold pyStr
  rw [if_neg (not_lt.mpr hq)]
  unfold isDec at hd
  rw [if_pos hd, pyFloat_decString]
  congr 1
  have hnn : 0 ≤ (q * 10 ^ decExp q).num :=
    Rat.num_nonneg.mpr (mul_nonneg hq (by positivity))
  have hnum : (((q * 10 ^ decExp q).num : ℤ) : ℚ) = q * 10 ^ decExp q := by
    conv_rhs => rw [← Rat.num_div_den (q * 10 ^ decExp q)]
    rw [hd]
    simp
  have h2 : (((q * 10 ^ decExp q).num.toNat : ℕ) : ℤ) = (q * 10 ^ decExp q).num :=
    Int.toNat_of_nonneg hnn
  have h1 : (((q * 10 ^ decExp q).num.toNat : ℕ) : ℚ) = q * 10 ^ decExp q := by
    rw [← hnum]
    exact_mod_cast congrArg (fun z : ℤ => (z : ℚ)) h2
  rw [h1]
  have hpow : ((10 : ℚ) ^ decExp q) ≠ 0 := by positivity
  field_simp

/-- Round a nonnegative rational to the nearest integer, ties to even (the
rounding Python's fixed-point formatting performs). -/
def roundHalfEven (x : ℚ) : ℕ :=
  let fl : ℕ := ⌊x⌋.toNat
  let fr : ℚ := x - fl
  if fr < 1 / 2 then fl
  else if 1 / 2 < fr then fl + 1
  else if fl % 2 = 0 then fl else fl + 1

/-- Model of Python's `f"{x:.2f}"`: the number rounded to hundredths, printed
with exactly two digits after the point. -/
def format2f (q : ℚ) : String :=
  let cents := roundHalfEven (|q| * 100)
  let sign : List Char := if q < 0 then ['-'] else []
  String.mk (sign ++ natChars (cents / 100) ++
    '.' :: [digitChar (cents % 100 / 10), digitChar (cents % 10)])

/-- `format2f` always renders exactly two digits after the decimal point. -/
theorem format2f_two_decimals (q : ℚ) : ∃ l d1 d2, (format2f q).data =
    l ++ ['.', d1, d2] ∧ d1.isDigit = true ∧ d2.isDigit = true := by
  unfold format2f
  refine ⟨(if q < 0 then ['-'] else []) ++ natChars (roundHalfEven (|q| * 100) / 100),
    digitChar (roundHalfEven (|q| * 100) % 100 / 10),
    digitChar (roundHalfEven (|q| * 100) % 10), ?_, ?_, ?_⟩
  · simp
  · exact ((digitChar_spec _ (by omega)).2).1
  · exact ((digitChar_spec _ (by omega)).2).1

/-- A bid record, as built in `main.py` and stored in Redis. -/
structure Bid where
  bid_id : String
  bidder : String
  amount : ℚ
  timestamp : String
deriving DecidableEq, Repr

/-- The fields of one event-log entry as written by `xadd` and read back by
`xread` (with `decode_responses=True` every present value is a string;
`none` models an absent field). -/
structure StreamFields where
  bid_id : Option String
  bidder : Option String
  amount : Option String
  timestamp : Option String
deriving DecidableEq, Repr

/-- The shared Redis state the bidding code touches: the value under
`HIGHEST_BID_KEY`, the list under `BID_HISTORY_KEY` (most recent first), the
counter under `BID_COUNTER_KEY`, and the entries of `STREAM_NAME` in append
order. -/
structure Store where
  highest : Option Bid
  history : List Bid
  counter : ℕ
  stream : List StreamFields
deriving DecidableEq, Repr

/-- `BidService.get_highest_bid`. -/
def get_highest_bid (s : Store) : Option Bid := s.highest

/-- The highest amount as `main.py` computes it:
`current_highest.get("amount", 0) if current_highest else 0`. -/
def currentAmount (s : Store) : ℚ := (s.highest.map Bid.amount).getD 0

/-- Redis `LRANGE key start stop`: negative indices count from the end of the
list, the range is inclusive and clamped to the list. -/
def lrange {α : Type} (l : List α) (start stop : ℤ) : List α :=
  let n : ℤ := l.length
  let s := max (if start < 0 then start + n else start) 0
  let e := if stop < 0 then stop + n else stop
  if e < s then [] else (l.take (e.toNat + 1)).drop s.toNat

/-- `BidService.get_bid_history(limit)`: `lrange(key, 0, limit - 1)` over the
stored history. -/
def get_bid_history (h : List Bid) (limit : ℤ) : List Bid := lrange h 0 (limit - 1)

/-- `BidService.save_bid`: one pipeline doing `set` of the highest-bid key,
`lpush` onto the history and `ltrim 0 49`. -/
def save_bid (bid : Bid) (s : Store) : Store :=
  { s with highest := some bid, history := (bid :: s.history).take 50 }

/-- `BidService.generate_bid_id`: `str(incr(counter))`. -/
def generate_bid_id (s : Store) : String × Store :=
  (toString (s.counter + 1), { s with counter := s.counter + 1 })

/-- `BidService.add_to_stream`: the field dict passed to `xadd`, with the
amount stringified (`str(bid_data["amount"])`). -/
def add_to_stream (b : Bid) : StreamFields :=
  ⟨some b.bid_id, some b.bidder, some (pyStr b.amount), some b.timestamp⟩

/-- One attempt environment for `save_bid_atomic`: the store the attempt's
watched read observes, and whether another writer modifies the watched key
before `EXEC` (which raises `WatchError`). -/
abbrev AtomicEnv := List (Store × Bool)

/-- Retry loop body of `BidService.save_bid_atomic`. Returns whether the bid
was saved, the store written by a successful `EXEC` (`none` when nothing was
written), and how many attempts ran. -/
def saveAtomicGo (amt : ℚ) (b : Bid) : ℕ → AtomicEnv → Bool × Option Store × ℕ
  | 0, _ => (false, none, 0)
  | _ + 1, [] => (false, none, 0)
  | fuel + 1, (s, conflict) :: rest =>
    if amt ≤ currentAmount s then (false, none, 1)
    else if conflict then
      if fuel = 0 then (false, none, 1)
      else
        let r := saveAtomicGo amt b fuel rest
        (r.1, r.2.1, r.2.2 + 1)
    else (true, some (save_bid b s), 1)

/-- `BidService.save_bid_atomic(bid_data, max_retries)`: optimistic
`WATCH`/`MULTI`/`EXEC` loop. The `envs` argument supplies, per attempt, the
concurrently-visible store and whether the watched key changes before the
transaction commits. -/
def save_bid_atomic (b : Bid) (envs : AtomicEnv) (max_retries : ℕ) :
    Bool × Option Store × ℕ :=
  saveAtomicGo b.amount b max_retries envs

/-- A JSON value arriving in a `submit_bid` message where Python expects a
number: either an actual number or a string. -/
inductive JVal where
  | num (q : ℚ)
  | jstr (s : String)
deriving DecidableEq, Repr

/-- Python `float(x)` on a message value: numbers pass through, strings are
parsed, absence was already defaulted to `0` by `get("amount", 0)`. -/
def pyFloatVal : JVal → Option ℚ
  | .num q => some q
  | .jstr s => pyFloat s

/-- An inbound `submit_bid` message (absent keys are `none`). -/
structure InMsg where
  bidder : Option String
  amount : Option JVal
deriving DecidableEq, Repr

/-- Python `str.strip()`: drop whitespace from both ends. -/
def pyStrip (s : String) : String :=
  String.mk (((s.data.dropWhile Char.isWhitespace).reverse.dropWhile
    Char.isWhitespace).reverse)

/-- `main.py`'s `_validate_and_process_bid`: returns the error reason the
function returns (`none` on acceptance) and the store after the call; `now`
stands for `datetime.utcnow().isoformat()`. -/
def validate_and_process_bid (msg : InMsg) (now : String) (s : Store) :
    Option String × Store :=
  match pyFloatVal (msg.amount.getD (.num 0)) with
  | none => (some "Invalid bid amount", s)
  | some amount =>
    let bidder := pyStrip (msg.bidder.getD "")
    if bidder = "" then (some "Bidder name is required", s)
    else if amount ≤ 0 then (some "Bid amount must be greater than 0", s)
    else
      let current_amount := currentAmount s
      if amount ≤ current_amount then
        (some ("Bid must be higher than current highest bid ($" ++
          format2f current_amount ++ ")"), s)
      else
        let ids := generate_bid_id s
        let bid : Bid := ⟨ids.1, bidder, amount, now⟩
        let s2 := save_bid bid ids.2
        ((none : Option String), { s2 with stream := s2.stream ++ [add_to_stream bid] })

/-- A sequence of `submit_bid` calls, each with its timestamp. -/
def runBids : List (InMsg × String) → Store → Store
  | [], s => s
  | p :: rest, s => runBids rest (validate_and_process_bid p.1 p.2 s).2

/-- The bids accepted along a sequence of `submit_bid` calls, in submission
order (each accepted bid is the new highest record right after its call). -/
def acceptedBids : List (InMsg × String) → Store → List Bid
  | [], _ => []
  | p :: rest, s =>
    let r := validate_and_process_bid p.1 p.2 s
    match r.1 with
    | none => r.2.highest.toList ++ acceptedBids rest r.2
    | some _ => acceptedBids rest r.2

/-- `StreamProcessor._parse_message`: build the broadcast dict; a missing
amount field defaults to `0` before `float` is applied, so only unparsable
amount text raises (modelled by `none`). -/
def parse_message (f : StreamFields) : Option Bid :=
  match (match f.amount with
         | none => some (0 : ℚ)
         | some a => pyFloat a) with
  | none => none
  | some amt => some ⟨f.bid_id.getD "", f.bidder.getD "", amt, f.timestamp.getD ""⟩

/-- One iteration of the per-message loop in
`StreamProcessor.process_messages`: broadcast the entry if it decodes and
advance `last_id` to its id; on a decode failure the exception is caught,
logged, and the state is left as it was. -/
def pbStep (st : ℕ × List Bid) (p : ℕ × StreamFields) : ℕ × List Bid :=
  match parse_message p.2 with
  | some b => (p.1, st.2 ++ [b])
  | none => st

/-- The inner per-batch loop of `StreamProcessor.process_messages`. Returns
the new `last_id` and the broadcasts in order. -/
def processBatch (cursor : ℕ) (batch : List (ℕ × StreamFields)) : ℕ × List Bid :=
  batch.foldl pbStep (cursor, [])

/-- The processor's `last_id`: `none` is the literal `"$"` it starts with
(`StreamProcessor.__init__`) and keeps until a broadcast succeeds; `some id`
is the id of the last successfully broadcast entry. Entry ids are 1-based
positions in the log. -/
abbrev LastId := Option ℕ

/-- What one `xread` call anchors at: a concrete id anchors at itself, while
the literal `"$"` is re-resolved, at every call that still passes it, to the
id of the log's last entry at the moment of the call. -/
def resolveAnchor (cur : LastId) (callLog : List StreamFields) : ℕ :=
  match cur with
  | none => callLog.length
  | some id => id

/-- `xread({stream: last_id}, count=10, block=1000)` observed as one poll:
`callLog` is the log when the call is issued (what `"$"` resolves against)
and `blockLog` the log once the bounded block ends; the call returns the
entries with id greater than the anchor, at most 10. -/
def xread (cur : LastId) (callLog blockLog : List StreamFields) :
    List (ℕ × StreamFields) :=
  ((List.enumFrom 1 blockLog).filter
    (fun p => decide (resolveAnchor cur callLog < p.1))).take 10

/-- The per-message loop body again, now tracking `last_id` as the code does
(`"$"` or an entry id): on a successful broadcast `last_id` becomes the
entry's id; a decode failure is caught and leaves it unchanged. -/
def pbStepD (st : LastId × List Bid) (p : ℕ × StreamFields) : LastId × List Bid :=
  match parse_message p.2 with
  | some b => (some p.1, st.2 ++ [b])
  | none => st

/-- One iteration of the `while True` loop of
`StreamProcessor.process_messages`: issue the `xread` and run the
per-message loop over the returned batch. -/
def pollStep (cur : LastId) (callLog blockLog : List StreamFields) :
    LastId × List Bid :=
  (xread cur callLog blockLog).foldl pbStepD (cur, [])

/-- `StreamProcessor.process_messages` run over a schedule of observed
polls: each element gives the log as the poll's `xread` call sees it and the
log once its bounded block ends (the append-only stream may grow between and
during polls). Returns every broadcast in order. -/
def process_messages (sched : List (List StreamFields × List StreamFields))
    (cur : LastId) : List Bid :=
  match sched with
  | [] => []
  | ba :: rest =>
    (pollStep cur ba.1 ba.2).2 ++ process_messages rest (pollStep cur ba.1 ba.2).1

/-- The append-only stream only grows: `l2` is `l1` with entries appended
(stated via `take` so that concrete instances are decidable). -/
def Appends (l1 l2 : List StreamFields) : Prop := l2.take l1.length = l1

instance (l1 l2 : List StreamFields) : Decidable (Appends l1 l2) := by
  unfold Appends
  infer_instance

/-- `last_id` never points below position `n`: vacuous for the initial `"$"`,
a bound on the id otherwise. -/
def LastIdBeyond (n : ℕ) : LastId → Prop
  | none => True
  | some id => n ≤ id

theorem validate_cases (msg : InMsg) (now : String) (s : Store) :
    (∃ e, validate_and_process_bid msg now s = (some e, s)) ∨
    (∃ b : Bid, validate_and_process_bid msg now s =
        (none, ⟨some b, (b :: s.history).take 50, s.counter + 1,
          s.stream ++ [add_to_stream b]⟩) ∧ currentAmount s < b.amount) := by
  unfold validate_and_process_bid
  cases hp : pyFloatVal (msg.amount.getD (.num 0)) with
  | none => exact Or.inl ⟨_, rfl⟩
  | some a =>
    by_cases h1 : pyStrip (msg.bidder.getD "") = ""
    · exact Or.inl ⟨"Bidder name is required", by simp [h1]⟩
    · by_cases h2 : a ≤ 0
      · exact Or.inl ⟨"Bid amount must be greater than 0", by simp [h1, h2]⟩
      · by_cases h3 : a ≤ currentAmount s
        · exact Or.inl ⟨"Bid must be higher than current highest bid ($" ++
            format2f (currentAmount s) ++ ")", by simp [h1, h2, h3]⟩
        · refine Or.inr ⟨⟨toString (s.counter + 1), pyStrip (msg.bidder.getD ""), a, now⟩,
            ?_, not_le.mp h3⟩
          simp [h1, h2, h3, generate_bid_id, save_bid]

theorem currentAmount_step_mono (msg : InMsg) (now : String) (s : Store) :
    currentAmount s ≤ currentAmount (validate_and_process_bid msg now s).2 := by
  rcases validate_cases msg now s with ⟨e, he⟩ | ⟨b, hb, hlt⟩
  · rw [he]
  · rw [hb]
    exact le_of_lt hlt

/-- C2: over any sequence of `submit_bid` calls, the amount stored in the
highest-bid record never decreases: every rejection leaves the record
untouched and every acceptance replaces it with a strictly larger amount, so
the stored highest amount after the run is at least the one before. -/
theorem c2_highest_amount_monotone (msgs : List (InMsg × String)) (s : Store) :
    currentAmount s ≤ currentAmount (runBids msgs s) := by
  induction msgs generalizing s with
  | nil => exact le_rfl
  | cons p rest ih =>
    exact le_trans (currentAmount_step_mono p.1 p.2 s) (ih _)

theorem take50_absorb {α : Type} (L M : List α) :
    (L ++ M.take 50).take 50 = (L ++ M).take 50 := by
  rw [List.take_append_eq_append_take, List.take_append_eq_append_take, List.take_take]
  congr 2
  omega

/-- C6: after any sequence of submissions starting from a store whose history
respects the capacity, the history equals the accepted bids (most recent
first) prepended to the old history and truncated to 50; in particular its
length never exceeds 50 and each accepted bid enters at the front, evicting
the oldest entry on overflow. -/
theorem c6_history_capacity (msgs : List (InMsg × String)) (s : Store)
    (hs : s.history.length ≤ 50) :
    (runBids msgs s).history =
      ((acceptedBids msgs s).reverse ++ s.history).take 50 ∧
    (runBids msgs s).history.length ≤ 50 := by
  induction msgs generalizing s with
  | nil =>
    constructor
    · simp [runBids, acceptedBids, List.take_of_length_le hs]
    · simp only [runBids]
      exact hs
  | cons p rest ih =>
    rcases validate_cases p.1 p.2 s with ⟨e, he⟩ | ⟨b, hb, _⟩
    · have h1 : runBids (p :: rest) s = runBids rest s := by
        simp [runBids, he]
      have h2 : acceptedBids (p :: rest) s = acceptedBids rest s := by
        simp [acceptedBids, he]
      rw [h1, h2]
      exact ih s hs
    · have hhist : ((b :: s.history).take 50).length ≤ 50 := by
        simp
      have h1 : runBids (p :: rest) s =
          runBids rest ⟨some b, (b :: s.history).take 50, s.counter + 1,
            s.stream ++ [add_to_stream b]⟩ := by
        simp [runBids, hb]
      have h2 : acceptedBids (p :: rest) s =
          b :: acceptedBids rest ⟨some b, (b :: s.history).take 50, s.counter + 1,
            s.stream ++ [add_to_stream b]⟩ := by
        simp [acceptedBids, hb]
      rw [h1, h2]
      obtain ⟨ihl, ihr⟩ := ih ⟨some b, (b :: s.history).take 50, s.counter + 1,
        s.stream ++ [add_to_stream b]⟩ hhist
      refine ⟨?_, ihr⟩
      rw [ihl, take50_absorb, List.reverse_cons, List.append_assoc]
      rfl

theorem validate_reject_eqs (msg : InMsg) (now : String) (s : Store) :
    (pyFloatVal (msg.amount.getD (.num 0)) = none →
      validate_and_process_bid msg now s = (some "Invalid bid amount", s)) ∧
    (∀ a, pyFloatVal (msg.amount.getD (.num 0)) = some a →
      pyStrip (msg.bidder.getD "") = "" →
      validate_and_process_bid msg now s = (some "Bidder name is required", s)) ∧
    (∀ a, pyFloatVal (msg.amount.getD (.num 0)) = some a →
      pyStrip (msg.bidder.getD "") ≠ "" → a ≤ 0 →
      validate_and_process_bid msg now s =
        (some "Bid amount must be greater than 0", s)) ∧
    (∀ a, pyFloatVal (msg.amount.getD (.num 0)) = some a →
      pyStrip (msg.bidder.getD "") ≠ "" → 0 < a → a ≤ currentAmount s →
      validate_and_process_bid msg now s =
        (some ("Bid must be higher than current highest bid ($" ++
          format2f (currentAmount s) ++ ")"), s)) := by
  refine ⟨?_, ?_, ?_, ?_⟩
  · intro hp
    unfold validate_and_process_bid
    rw [hp]
  · intro a hp hb
    unfold validate_and_process_bid
    rw [hp]
    simp [hb]
  · intro a hp hb hle
    unfold validate_and_process_bid
    rw [hp]
    simp [hb, hle]
  · intro a hp hb hpos hle
    unfold validate_and_process_bid
    rw [hp]
    simp [hb, not_le.mpr hpos, hle]

/-- C3 (amended): the checks of `_validate_and_process_bid` run in the order
amount-parses-to-a-finite-number, bidder-non-empty, amount-positive,
amount-above-current — the amount parse moves ahead of the bidder check,
the only change to the claim — each failure short-circuiting with its
reason; in particular a submission with both an empty bidder and a
non-numeric amount is rejected with "Invalid bid amount", not
"Bidder name is required". (In this embedding every parsed amount is a
finite rational: the parser model accepts only decimal numerals, so text
such as "inf" lies outside the model.) -/
theorem c3_validation_order (msg : InMsg) (now : String) (s : Store) :
    (pyFloatVal (msg.amount.getD (.num 0)) = none →
      validate_and_process_bid msg now s = (some "Invalid bid amount", s)) ∧
    (∀ a, pyFloatVal (msg.amount.getD (.num 0)) = some a →
      pyStrip (msg.bidder.getD "") = "" →
      validate_and_process_bid msg now s = (some "Bidder name is required", s)) ∧
    (∀ a, pyFloatVal (msg.amount.getD (.num 0)) = some a →
      pyStrip (msg.bidder.getD "") ≠ "" → a ≤ 0 →
      validate_and_process_bid msg now s =
        (some "Bid amount must be greater than 0", s)) ∧
    (∀ a, pyFloatVal (msg.amount.getD (.num 0)) = some a →
      pyStrip (msg.bidder.getD "") ≠ "" → 0 < a → a ≤ currentAmount s →
      validate_and_process_bid msg now s =
        (some ("Bid must be higher than current highest bid ($" ++
          format2f (currentAmount s) ++ ")"), s)) :=
  validate_reject_eqs msg now s

/-- C3 counterexample: with an empty bidder and a non-numeric amount the code
returns "Invalid bid amount", because the amount is parsed before the bidder
is checked; the claimed reason "Bidder name is required" is not returned. -/
theorem c3_counterexample :
    (validate_and_process_bid ⟨some "", some (.jstr "abc")⟩ "t"
      ⟨none, [], 0, []⟩).1 = some "Invalid bid amount" ∧
    (validate_and_process_bid ⟨some "", some (.jstr "abc")⟩ "t"
      ⟨none, [], 0, []⟩).1 ≠ some "Bidder name is required" := by
  constructor
  · decide
  · decide

theorem c3_witness :
    validate_and_process_bid ⟨some "", some (.jstr "abc")⟩ "t" ⟨none, [], 0, []⟩ =
      (some "Invalid bid amount", ⟨none, [], 0, []⟩) ∧
    validate_and_process_bid ⟨some "  ", some (.num 5)⟩ "t" ⟨none, [], 0, []⟩ =
      (some "Bidder name is required", ⟨none, [], 0, []⟩) ∧
    validate_and_process_bid ⟨some "al", some (.num (-5))⟩ "t" ⟨none, [], 0, []⟩ =
      (some "Bid amount must be greater than 0", ⟨none, [], 0, []⟩) ∧
    validate_and_process_bid ⟨some "bo", some (.num 120)⟩ "t"
        ⟨some ⟨"1", "al", 150, "t"⟩, [⟨"1", "al", 150, "t"⟩], 1, []⟩ =
      (some "Bid must be higher than current highest bid ($150.00)",
        ⟨some ⟨"1", "al", 150, "t"⟩, [⟨"1", "al", 150, "t"⟩], 1, []⟩) :=
  ⟨(c3_validation_order ⟨some "", some (.jstr "abc")⟩ "t" ⟨none, [], 0, []⟩).1
      (by decide),
   (c3_validation_order ⟨some "  ", some (.num 5)⟩ "t" ⟨none, [], 0, []⟩).2.1 5
      (by decide) (by decide),
   (c3_validation_order ⟨some "al", some (.num (-5))⟩ "t" ⟨none, [], 0, []⟩).2.2.1
      (-5) (by decide) (by decide) (by decide),
   by
    have h := (c3_validation_order ⟨some "bo", some (.num 120)⟩ "t"
      ⟨some ⟨"1", "al", 150, "t"⟩, [⟨"1", "al", 150, "t"⟩], 1, []⟩).2.2.2 120
      (by decide) (by decide) (by decide) (by decide)
    rw [h]
    decide⟩

/-- C4: every validation failure returns its exact reason string and leaves
the highest-bid record, the history and the id counter (indeed the whole
store, stream included) unchanged: whenever a reason is returned the store
after the call is the store before it, and each of the four failure modes
yields its exact string. -/
theorem c4_rejection_exact_and_pure (msg : InMsg) (now : String) (s : Store) :
    (∀ e, (validate_and_process_bid msg now s).1 = some e →
      (validate_and_process_bid msg now s).2.highest = s.highest ∧
      (validate_and_process_bid msg now s).2.history = s.history ∧
      (validate_and_process_bid msg now s).2.counter = s.counter ∧
      (validate_and_process_bid msg now s).2 = s) ∧
    (pyFloatVal (msg.amount.getD (.num 0)) = none →
      (validate_and_process_bid msg now s).1 = some "Invalid bid amount") ∧
    (∀ a, pyFloatVal (msg.amount.getD (.num 0)) = some a →
      pyStrip (msg.bidder.getD "") = "" →
      (validate_and_process_bid msg now s).1 = some "Bidder name is required") ∧
    (∀ a, pyFloatVal (msg.amount.getD (.num 0)) = some a →
      pyStrip (msg.bidder.getD "") ≠ "" → a ≤ 0 →
      (validate_and_process_bid msg now s).1 =
        some "Bid amount must be greater than 0") ∧
    (∀ a, pyFloatVal (msg.amount.getD (.num 0)) = some a →
      pyStrip (msg.bidder.getD "") ≠ "" → 0 < a → a ≤ currentAmount s →
      (validate_and_process_bid msg now s).1 =
        some ("Bid must be higher than current highest bid ($" ++
          format2f (currentAmount s) ++ ")")) := by
  obtain ⟨r1, r2, r3, r4⟩ := validate_reject_eqs msg now s
  refine ⟨?_, ?_, ?_, ?_, ?_⟩
  · intro e he
    rcases validate_cases msg now s with ⟨e2, he2⟩ | ⟨b, hb, _⟩
    · rw [he2]
      exact ⟨rfl, rfl, rfl, rfl⟩
    · rw [hb] at he
      exact absurd he (by simp)
  · intro hp
    rw [r1 hp]
  · intro a hp hb
    rw [r2 a hp hb]
  · intro a hp hb hle
    rw [r3 a hp hb hle]
  · intro a hp hb hpos hle
    rw [r4 a hp hb hpos hle]

theorem c4_witness :
    (validate_and_process_bid ⟨some "al", some (.num 0)⟩ "t" ⟨none, [], 0, []⟩).1 =
      some "Bid amount must be greater than 0" ∧
    (validate_and_process_bid ⟨some "al", some (.num (-5))⟩ "t" ⟨none, [], 0, []⟩).1 =
      some "Bid amount must be greater than 0" ∧
    (validate_and_process_bid ⟨some "", some (.num 5)⟩ "t" ⟨none, [], 0, []⟩).1 =
      some "Bidder name is required" ∧
    (validate_and_process_bid ⟨some "al", some (.jstr "abc")⟩ "t"
      ⟨none, [], 0, []⟩).1 = some "Invalid bid amount" ∧
    (validate_and_process_bid ⟨some "al", some (.jstr "abc")⟩ "t"
      ⟨none, [], 0, []⟩).2 = ⟨none, [], 0, []⟩ :=
  ⟨(c4_rejection_exact_and_pure ⟨some "al", some (.num 0)⟩ "t"
      ⟨none, [], 0, []⟩).2.2.2.1 0 (by decide) (by decide) (by decide),
   (c4_rejection_exact_and_pure ⟨some "al", some (.num (-5))⟩ "t"
      ⟨none, [], 0, []⟩).2.2.2.1 (-5) (by decide) (by decide) (by decide),
   (c4_rejection_exact_and_pure ⟨some "", some (.num 5)⟩ "t"
      ⟨none, [], 0, []⟩).2.2.1 5 (by decide) (by decide),
   (c4_rejection_exact_and_pure ⟨some "al", some (.jstr "abc")⟩ "t"
      ⟨none, [], 0, []⟩).2.1 (by decide),
   ((c4_rejection_exact_and_pure ⟨some "al", some (.jstr "abc")⟩ "t"
      ⟨none, [], 0, []⟩).1 "Invalid bid amount" (by decide)).2.2.2⟩

/-- C5: when the amount is positive, the bidder valid, but the amount does
not exceed the committed highest, the reason is exactly the template
"Bid must be higher than current highest bid ($X.XX)" built from the current
amount rendered by the two-decimal formatter; the formatter always emits
exactly two digits after the point, and with no stored bid the current
amount is 0, rendered "0.00". -/
theorem c5_too_low_message (msg : InMsg) (now : String) (s : Store) (a : ℚ)
    (hp : pyFloatVal (msg.amount.getD (.num 0)) = some a)
    (hb : pyStrip (msg.bidder.getD "") ≠ "") (hpos : 0 < a)
    (hle : a ≤ currentAmount s) :
    validate_and_process_bid msg now s =
      (some ("Bid must be higher than current highest bid ($" ++
        format2f (currentAmount s) ++ ")"), s) ∧
    (∃ l d1 d2, (format2f (currentAmount s)).data = l ++ ['.', d1, d2] ∧
      d1.isDigit = true ∧ d2.isDigit = true) ∧
    (s.highest = none → format2f (currentAmount s) = "0.00") := by
  refine ⟨(validate_reject_eqs msg now s).2.2.2 a hp hb hpos hle,
    format2f_two_decimals (currentAmount s), ?_⟩
  intro hnone
  have h0 : currentAmount s = 0 := by simp [currentAmount, hnone]
  rw [h0]
  decide

theorem c5_witness :
    validate_and_process_bid ⟨some "bo", some (.num 100)⟩ "t"
        ⟨some ⟨"1", "al", 100, "t"⟩, [⟨"1", "al", 100, "t"⟩], 1, []⟩ =
      (some "Bid must be higher than current highest bid ($100.00)",
        ⟨some ⟨"1", "al", 100, "t"⟩, [⟨"1", "al", 100, "t"⟩], 1, []⟩) := by
  have h := (c5_too_low_message ⟨some "bo", some (.num 100)⟩ "t"
    ⟨some ⟨"1", "al", 100, "t"⟩, [⟨"1", "al", 100, "t"⟩], 1, []⟩ 100
    (by decide) (by decide) (by decide) (by decide)).1
  rw [h]
  decide

/-- C9 (amended): for every limit of at least 1, `get_bid_history` returns
the first `limit` stored entries — the most recent ones, in
most-recent-first order — so at most `limit` of them; for limit 0 the end
index passed to `LRANGE` is `-1`, which Redis reads as the last element, so
the whole history is returned. -/
theorem c9_history_limit (h : List Bid) (limit : ℤ) :
    (1 ≤ limit →
      get_bid_history h limit = h.take limit.toNat ∧
      (get_bid_history h limit).length ≤ limit.toNat) ∧
    get_bid_history h 0 = h := by
  constructor
  · intro hl
    have heq : get_bid_history h limit = h.take limit.toNat := by
      simp only [get_bid_history, lrange]
      rw [if_neg (show ¬ (limit - 1 : ℤ) < 0 by omega)]
      norm_num
      rw [if_neg (show ¬ limit < 1 by omega)]
      congr 1
      omega
    refine ⟨heq, ?_⟩
    rw [heq]
    simp
  · simp only [get_bid_history, lrange]
    norm_num
    rcases List.eq_nil_or_concat h with hnil | ⟨l2, a, rfl⟩
    · subst hnil
      norm_num
    · rw [if_neg (by simp : ¬ l2.concat a = [])]
      rw [show ((-1 : ℤ) + ((l2.concat a).length : ℤ)).toNat + 1 =
        (l2.concat a).length by simp [List.length_concat]]
      exact List.take_length _

/-- C9 counterexample: with one stored bid, `get_bid_history 0` returns that
bid — one entry, more than the limit 0 — because `lrange(key, 0, -1)` denotes
the whole list in Redis. -/
theorem c9_counterexample :
    get_bid_history [⟨"1", "al", 5, "t"⟩] 0 = [⟨"1", "al", 5, "t"⟩] ∧
    ¬ ((get_bid_history [⟨"1", "al", 5, "t"⟩] 0).length ≤ 0) := by
  constructor
  · decide
  · decide

theorem c9_witness :
    get_bid_history [⟨"3", "cy", 9, "t"⟩, ⟨"2", "bo", 7, "t"⟩, ⟨"1", "al", 5, "t"⟩] 2 =
      [⟨"3", "cy", 9, "t"⟩, ⟨"2", "bo", 7, "t"⟩] ∧
    (get_bid_history [⟨"3", "cy", 9, "t"⟩, ⟨"2", "bo", 7, "t"⟩, ⟨"1", "al", 5, "t"⟩]
      2).length ≤ 2 ∧
    get_bid_history [⟨"3", "cy", 9, "t"⟩, ⟨"2", "bo", 7, "t"⟩, ⟨"1", "al", 5, "t"⟩] 0 =
      [⟨"3", "cy", 9, "t"⟩, ⟨"2", "bo", 7, "t"⟩, ⟨"1", "al", 5, "t"⟩] := by
  have h2 := (c9_history_limit
    [⟨"3", "cy", 9, "t"⟩, ⟨"2", "bo", 7, "t"⟩, ⟨"1", "al", 5, "t"⟩] 2).1 (by decide)
  have h0 := (c9_history_limit
    [⟨"3", "cy", 9, "t"⟩, ⟨"2", "bo", 7, "t"⟩, ⟨"1", "al", 5, "t"⟩] 2).2
  refine ⟨?_, ?_, ?_⟩
  · rw [h2.1]
    decide
  · exact h2.2
  · exact (c9_history_limit
      [⟨"3", "cy", 9, "t"⟩, ⟨"2", "bo", 7, "t"⟩, ⟨"1", "al", 5, "t"⟩] 0).2

/-- C10: an accepted bid written to the event stream by `add_to_stream`
(amount stringified) and decoded by `_parse_message` round-trips: the
bid_id, bidder and timestamp strings come back unchanged and the parsed
amount equals the original amount. (Every accepted amount comes from a
Python float, so it has a finite nonnegative decimal expansion, which is the
hypothesis.) -/
theorem c10_stream_roundtrip (b : Bid) (hnn : 0 ≤ b.amount)
    (hdec : isDec b.amount) :
    parse_message (add_to_stream b) = some b := by
  unfold add_to_stream parse_message
  show (match pyFloat (pyStr b.amount) with
        | none => none
        | some amt => some ⟨(some b.bid_id).getD "", (some b.bidder).getD "",
            amt, (some b.timestamp).getD ""⟩) = some b
  rw [pyFloat_pyStr b.amount hnn hdec]
  rfl

theorem c10_witness :
    (0 : ℚ) ≤ 3 / 2 ∧ isDec (3 / 2 : ℚ) ∧
    parse_message (add_to_stream ⟨"7", "carol", 3 / 2, "t"⟩) =
      some ⟨"7", "carol", 3 / 2, "t"⟩ :=
  ⟨by decide, by decide,
    c10_stream_roundtrip ⟨"7", "carol", 3 / 2, "t"⟩ (by decide) (by decide)⟩

theorem c6_witness :
    (runBids [(⟨some "al", some (.num 5)⟩, "t1"), (⟨some "bo", some (.num 7)⟩, "t2")]
      ⟨none, [], 0, []⟩).history =
      [⟨"2", "bo", 7, "t2"⟩, ⟨"1", "al", 5, "t1"⟩] ∧
    (runBids [(⟨some "al", some (.num 5)⟩, "t1"), (⟨some "bo", some (.num 7)⟩, "t2")]
      ⟨none, [], 0, []⟩).history.length ≤ 50 := by
  have h := c6_history_capacity
    [(⟨some "al", some (.num 5)⟩, "t1"), (⟨some "bo", some (.num 7)⟩, "t2")]
    ⟨none, [], 0, []⟩ (by decide)
  refine ⟨?_, h.2⟩
  rw [h.1]
  decide

/-- C1: `save_bid_atomic` (with its default `max_retries = 3`) commits a bid
only if strictly above the committed highest: (a) when the candidate amount
is at most the currently observed highest (an empty record reading as 0) it
returns False after one attempt with nothing written; (b) when every attempt
observes a beatable record but the watched key changes concurrently each
time, it returns False after exactly 3 attempts with nothing written; (c) on
success it returns True and in the one `MULTI`/`EXEC` transaction replaces
the highest record with the bid, prepends the bid to the history and
truncates the history to 50, leaving counter and stream untouched. -/
theorem c1_save_bid_atomic (b : Bid) (s s1 s2 s3 : Store) (c : Bool)
    (rest rest3 : AtomicEnv) :
    (b.amount ≤ currentAmount s →
      save_bid_atomic b ((s, c) :: rest) 3 = (false, none, 1)) ∧
    (currentAmount s1 < b.amount → currentAmount s2 < b.amount →
      currentAmount s3 < b.amount →
      save_bid_atomic b ((s1, true) :: (s2, true) :: (s3, true) :: rest3) 3 =
        (false, none, 3)) ∧
    (currentAmount s < b.amount →
      save_bid_atomic b ((s, false) :: rest) 3 =
        (true, some ⟨some b, (b :: s.history).take 50, s.counter, s.stream⟩, 1)) := by
  refine ⟨?_, ?_, ?_⟩
  · intro h
    simp [save_bid_atomic, saveAtomicGo, h]
  · intro h1 h2 h3
    simp [save_bid_atomic, saveAtomicGo, not_le.mpr h1, not_le.mpr h2, not_le.mpr h3]
  · intro h
    simp [save_bid_atomic, saveAtomicGo, not_le.mpr h, save_bid]

theorem c1_witness :
    save_bid_atomic ⟨"2", "bo", 100, "t"⟩
      [(⟨some ⟨"1", "al", 150, "t"⟩, [⟨"1", "al", 150, "t"⟩], 1, []⟩, false)] 3 =
      (false, none, 1) ∧
    save_bid_atomic ⟨"2", "bo", 200, "t"⟩
      [(⟨some ⟨"1", "al", 150, "t"⟩, [⟨"1", "al", 150, "t"⟩], 1, []⟩, true),
       (⟨some ⟨"1", "al", 150, "t"⟩, [⟨"1", "al", 150, "t"⟩], 1, []⟩, true),
       (⟨some ⟨"1", "al", 150, "t"⟩, [⟨"1", "al", 150, "t"⟩], 1, []⟩, true)] 3 =
      (false, none, 3) ∧
    save_bid_atomic ⟨"2", "bo", 200, "t"⟩
      [(⟨some ⟨"1", "al", 150, "t"⟩, [⟨"1", "al", 150, "t"⟩], 1, []⟩, false)] 3 =
      (true, some ⟨some ⟨"2", "bo", 200, "t"⟩,
        [⟨"2", "bo", 200, "t"⟩, ⟨"1", "al", 150, "t"⟩], 1, []⟩, 1) := by
  refine ⟨?_, ?_, ?_⟩
  · exact (c1_save_bid_atomic ⟨"2", "bo", 100, "t"⟩
      ⟨some ⟨"1", "al", 150, "t"⟩, [⟨"1", "al", 150, "t"⟩], 1, []⟩
      ⟨none, [], 0, []⟩ ⟨none, [], 0, []⟩ ⟨none, [], 0, []⟩ false [] []).1 (by decide)
  · exact (c1_save_bid_atomic ⟨"2", "bo", 200, "t"⟩ ⟨none, [], 0, []⟩
      ⟨some ⟨"1", "al", 150, "t"⟩, [⟨"1", "al", 150, "t"⟩], 1, []⟩
      ⟨some ⟨"1", "al", 150, "t"⟩, [⟨"1", "al", 150, "t"⟩], 1, []⟩
      ⟨some ⟨"1", "al", 150, "t"⟩, [⟨"1", "al", 150, "t"⟩], 1, []⟩
      false [] []).2.1 (by decide) (by decide) (by decide)
  · rw [(c1_save_bid_atomic ⟨"2", "bo", 200, "t"⟩
      ⟨some ⟨"1", "al", 150, "t"⟩, [⟨"1", "al", 150, "t"⟩], 1, []⟩
      ⟨none, [], 0, []⟩ ⟨none, [], 0, []⟩ ⟨none, [], 0, []⟩ false [] []).2.2
      (by decide)]
    decide

theorem processBatch_go_snd (batch : List (ℕ × StreamFields)) :
    ∀ c acc, (batch.foldl pbStep (c, acc)).2 =
      acc ++ batch.filterMap (fun p => parse_message p.2) := by
  induction batch with
  | nil => intro c acc; simp
  | cons p t ih =>
    intro c acc
    cases hp : parse_message p.2 with
    | none => simp [pbStep, hp, ih]
    | some b => simp [pbStep, hp, ih]

theorem processBatch_go_fst (batch : List (ℕ × StreamFields)) :
    ∀ c acc, (batch.foldl pbStep (c, acc)).1 =
      ((batch.filter (fun p => (parse_message p.2).isSome)).map Prod.fst).getLastD c := by
  induction batch with
  | nil => intro c acc; simp
  | cons p t ih =>
    intro c acc
    cases hp : parse_message p.2 with
    | none =>
      have hstep : pbStep (c, acc) p = (c, acc) := by simp [pbStep, hp]
      have hfil : List.filter (fun x => (parse_message x.2).isSome) (p :: t) =
          List.filter (fun x => (parse_message x.2).isSome) t := by
        simp [List.filter_cons, hp]
      rw [List.foldl_cons, hstep, ih, hfil]
    | some b =>
      have hstep : pbStep (c, acc) p = (p.1, acc ++ [b]) := by simp [pbStep, hp]
      have hfil : List.filter (fun x => (parse_message x.2).isSome) (p :: t) =
          p :: List.filter (fun x => (parse_message x.2).isSome) t := by
        simp [List.filter_cons, hp]
      rw [List.foldl_cons, hstep, ih, hfil, List.map_cons, List.getLastD_cons]

/-- C7 (amended): within a batch, an entry whose amount text fails to parse
is skipped — the exception is caught, the entry is never broadcast — and
every other entry of the batch, before or after it, is still broadcast in
order (the broadcasts are exactly the decodable entries in order); the
cursor ends at the id of the last successfully broadcast entry, so it does
not advance past a trailing malformed entry, which the next read fetches
again. An entry missing its amount field is not malformed to the decoder: it
decodes with amount 0.0 and is broadcast. -/
theorem c7_skip_malformed (cursor : ℕ) (batch : List (ℕ × StreamFields)) :
    (processBatch cursor batch).2 =
      batch.filterMap (fun p => parse_message p.2) ∧
    (processBatch cursor batch).1 =
      ((batch.filter (fun p => (parse_message p.2).isSome)).map Prod.fst).getLastD
        cursor ∧
    (∀ f : StreamFields, f.amount = none →
      parse_message f =
        some ⟨f.bid_id.getD "", f.bidder.getD "", 0, f.timestamp.getD ""⟩) := by
  refine ⟨processBatch_go_snd batch cursor [],
    processBatch_go_fst batch cursor [], ?_⟩
  intro f hf
  unfold parse_message
  rw [hf]

/-- C7 counterexample: a log entry with no amount field is delivered (with
amount 0), not skipped: here the batch's broadcasts contain the
missing-amount entry. -/
theorem c7_counterexample :
    (processBatch 0 [(1, ⟨some "9", some "mallory", none, some "t"⟩),
        (2, ⟨some "8", some "bob", some "2.5", some "t"⟩)]).2 =
      [⟨"9", "mallory", 0, "t"⟩, ⟨"8", "bob", 5 / 2, "t"⟩] ∧
    (⟨"9", "mallory", 0, "t"⟩ : Bid) ∈
      (processBatch 0 [(1, ⟨some "9", some "mallory", none, some "t"⟩),
        (2, ⟨some "8", some "bob", some "2.5", some "t"⟩)]).2 := by
  constructor
  · decide
  · decide

theorem c7_witness :
    (processBatch 0 [(1, ⟨some "1", some "al", some "1.0", some "t"⟩),
        (2, ⟨some "2", some "bo", some "xy", some "t"⟩),
        (3, ⟨some "3", some "cy", some "3.5", some "t"⟩)]).2 =
      [⟨"1", "al", 1, "t"⟩, ⟨"3", "cy", 7 / 2, "t"⟩] ∧
    (processBatch 0 [(1, ⟨some "1", some "al", some "1.0", some "t"⟩),
        (2, ⟨some "2", some "bo", some "xy", some "t"⟩),
        (3, ⟨some "3", some "cy", some "3.5", some "t"⟩)]).1 = 3 ∧
    parse_message ⟨some "9", some "mallory", none, some "t"⟩ =
      some ⟨"9", "mallory", 0, "t"⟩ := by
  have h := c7_skip_malformed 0
    [(1, ⟨some "1", some "al", some "1.0", some "t"⟩),
     (2, ⟨some "2", some "bo", some "xy", some "t"⟩),
     (3, ⟨some "3", some "cy", some "3.5", some "t"⟩)]
  refine ⟨?_, ?_, ?_⟩
  · rw [h.1]
    decide
  · rw [h.2.1]
    decide
  · exact h.2.2 ⟨some "9", some "mallory", none, some "t"⟩ (by decide)

theorem enumFrom_filter_lt {α : Type} (l : List α) :
    ∀ k c : ℕ, (List.enumFrom k l).filter (fun p => decide (c < p.1)) =
      List.enumFrom (max k (c + 1)) (l.drop (c + 1 - k)) := by
  induction l with
  | nil => intro k c; simp [List.enumFrom]
  | cons a t ih =>
    intro k c
    by_cases hk : c < k
    · rw [show max k (c + 1) = k by omega, show c + 1 - k = 0 by omega,
        List.drop_zero]
      apply List.filter_eq_self.mpr
      intro p hp
      have hle := List.le_fst_of_mem_enumFrom hp
      simp only [decide_eq_true_eq]
      omega
    · have hd : (fun p : ℕ × α => decide (c < p.1)) (k, a) = false := by
        simp only [decide_eq_false_iff_not]
        omega
      rw [show List.enumFrom k (a :: t) = (k, a) :: List.enumFrom (k + 1) t from rfl,
        List.filter_cons_of_neg (by simpa using hd), ih (k + 1) c,
        show max (k + 1) (c + 1) = max k (c + 1) by omega,
        show c + 1 - k = (c - k) + 1 by omega, List.drop_succ_cons,
        show c + 1 - (k + 1) = c - k by omega]

theorem enumFrom_take {α : Type} (l : List α) :
    ∀ k n : ℕ, (List.enumFrom k l).take n = List.enumFrom k (l.take n) := by
  induction l with
  | nil => intro k n; simp [List.enumFrom]
  | cons a t ih =>
    intro k n
    cases n with
    | zero => simp [List.enumFrom]
    | succ n =>
      rw [show List.enumFrom k (a :: t) = (k, a) :: List.enumFrom (k + 1) t from rfl,
        List.take_succ_cons, List.take_succ_cons, ih (k + 1) n]
      rfl

theorem xread_eq (cur : LastId) (bl al : List StreamFields) :
    xread cur bl al = List.enumFrom (resolveAnchor cur bl + 1)
      ((al.drop (resolveAnchor cur bl)).take 10) := by
  unfold xread
  rw [enumFrom_filter_lt al 1 (resolveAnchor cur bl),
    show max 1 (resolveAnchor cur bl + 1) = resolveAnchor cur bl + 1 by omega,
    show resolveAnchor cur bl + 1 - 1 = resolveAnchor cur bl by omega, enumFrom_take]

theorem foldl_enumFrom_all_someD (chunk : List StreamFields) :
    ∀ j : ℕ, ∀ cur : LastId, ∀ acc : List Bid,
      (∀ f ∈ chunk, (parse_message f).isSome) →
      (List.enumFrom j chunk).foldl pbStepD (cur, acc) =
        (if chunk.isEmpty then cur else some (j + chunk.length - 1),
          acc ++ chunk.filterMap parse_message) := by
  induction chunk with
  | nil => intro j cur acc h; simp [List.enumFrom]
  | cons f t ih =>
    intro j cur acc h
    obtain ⟨b, hb⟩ := Option.isSome_iff_exists.mp (h f (by simp))
    rw [show List.enumFrom j (f :: t) = (j, f) :: List.enumFrom (j + 1) t from rfl,
      List.foldl_cons, show pbStepD (cur, acc) (j, f) = (some j, acc ++ [b]) by
        simp [pbStepD, hb],
      ih (j + 1) (some j) (acc ++ [b]) (fun g hg => h g (by simp [hg]))]
    cases t with
    | nil => simp [hb]
    | cons g t2 =>
      refine Prod.ext ?_ ?_
      · show (if (g :: t2).isEmpty then some j
            else some (j + 1 + (g :: t2).length - 1) : LastId) =
          if (f :: g :: t2).isEmpty then cur
            else some (j + (f :: g :: t2).length - 1)
        simp only [List.isEmpty_cons, List.length_cons]
        norm_num
        omega
      · show acc ++ [b] ++ (g :: t2).filterMap parse_message =
          acc ++ (f :: g :: t2).filterMap parse_message
        simp [List.filterMap_cons, hb, List.append_assoc]

theorem pollGo_snd (batch : List (ℕ × StreamFields)) :
    ∀ cur : LastId, ∀ acc : List Bid,
      (batch.foldl pbStepD (cur, acc)).2 =
        acc ++ batch.filterMap (fun p => parse_message p.2) := by
  induction batch with
  | nil => intro cur acc; simp
  | cons p t ih =>
    intro cur acc
    cases hp : parse_message p.2 with
    | none => simp [pbStepD, hp, ih]
    | some b => simp [pbStepD, hp, ih]

theorem pollGo_fst_cases (batch : List (ℕ × StreamFields)) :
    ∀ cur : LastId, ∀ acc : List Bid,
      (batch.foldl pbStepD (cur, acc)).1 = cur ∨
      ∃ p ∈ batch, (batch.foldl pbStepD (cur, acc)).1 = some p.1 := by
  induction batch with
  | nil => intro cur acc; exact Or.inl rfl
  | cons p t ih =>
    intro cur acc
    cases hp : parse_message p.2 with
    | none =>
      have hstep : pbStepD (cur, acc) p = (cur, acc) := by simp [pbStepD, hp]
      rw [List.foldl_cons, hstep]
      rcases ih cur acc with h | ⟨q, hq, h⟩
      · exact Or.inl h
      · exact Or.inr ⟨q, by simp [hq], h⟩
    | some b =>
      have hstep : pbStepD (cur, acc) p = (some p.1, acc ++ [b]) := by
        simp [pbStepD, hp]
      rw [List.foldl_cons, hstep]
      rcases ih (some p.1) (acc ++ [b]) with h | ⟨q, hq, h⟩
      · exact Or.inr ⟨p, by simp, h⟩
      · exact Or.inr ⟨q, by simp [hq], h⟩

theorem mem_xread {cur : LastId} {bl al : List StreamFields}
    {p : ℕ × StreamFields} (hp : p ∈ xread cur bl al) :
    resolveAnchor cur bl < p.1 ∧ p ∈ List.enumFrom 1 al := by
  unfold xread at hp
  have hp2 := List.mem_of_mem_take hp
  constructor
  · have := List.of_mem_filter hp2
    simpa using this
  · exact List.mem_of_mem_filter hp2

theorem Appends_length_le {l1 l2 : List StreamFields} (h : Appends l1 l2) :
    l1.length ≤ l2.length := by
  have h2 := congrArg List.length h
  rw [List.length_take] at h2
  omega

theorem pollStep_no_replay (pre bl al : List StreamFields) (cur : LastId)
    (hb : Appends pre bl) (hc : LastIdBeyond pre.length cur) :
    LastIdBeyond pre.length (pollStep cur bl al).1 ∧
    ∀ b ∈ (pollStep cur bl al).2, ∃ i f, pre.length < i ∧
      parse_message f = some b ∧ (i, f) ∈ List.enumFrom 1 al := by
  have hanchor : pre.length ≤ resolveAnchor cur bl := by
    cases cur with
    | none => exact Appends_length_le hb
    | some id => exact hc
  constructor
  · rcases pollGo_fst_cases (xread cur bl al) cur [] with h | ⟨p, hp, h⟩
    · unfold pollStep
      rw [h]
      exact hc
    · unfold pollStep
      rw [h]
      show pre.length ≤ p.1
      have := (mem_xread hp).1
      omega
  · intro b hmem
    unfold pollStep at hmem
    rw [pollGo_snd (xread cur bl al) cur [], List.nil_append] at hmem
    obtain ⟨p, hp, hpm⟩ := List.mem_filterMap.mp hmem
    obtain ⟨hlt, hmem2⟩ := mem_xread hp
    exact ⟨p.1, p.2, by omega, hpm, by simpa using hmem2⟩

theorem run_no_replay (pre : List StreamFields)
    (sched : List (List StreamFields × List StreamFields)) :
    ∀ cur : LastId, (∀ ba ∈ sched, Appends pre ba.1 ∧ Appends ba.1 ba.2) →
      LastIdBeyond pre.length cur →
      ∀ b ∈ process_messages sched cur, ∃ i f, pre.length < i ∧
        parse_message f = some b ∧ ∃ ba ∈ sched, (i, f) ∈ List.enumFrom 1 ba.2 := by
  induction sched with
  | nil =>
    intro cur hs hc b hb2
    simp [process_messages] at hb2
  | cons ba rest ih =>
    intro cur hs hc b hb2
    have hba := hs ba (by simp)
    have hps := pollStep_no_replay pre ba.1 ba.2 cur hba.1 hc
    rw [show process_messages (ba :: rest) cur =
      (pollStep cur ba.1 ba.2).2 ++
        process_messages rest (pollStep cur ba.1 ba.2).1 from rfl] at hb2
    rcases List.mem_append.mp hb2 with hmem | hmem
    · obtain ⟨i, f, h1, h2, h3⟩ := hps.2 b hmem
      exact ⟨i, f, h1, h2, ba, by simp, h3⟩
    · obtain ⟨i, f, h1, h2, ba2, hba2, h3⟩ :=
        ih (pollStep cur ba.1 ba.2).1 (fun x hx => hs x (by simp [hx])) hps.1 b hmem
      exact ⟨i, f, h1, h2, ba2, by simp [hba2], h3⟩

theorem pollStep_at (id : ℕ) (bl al : List StreamFields)
    (h : ∀ f ∈ (al.drop id).take 10, (parse_message f).isSome) :
    pollStep (some id) bl al =
      (if ((al.drop id).take 10).isEmpty then some id
        else some (id + ((al.drop id).take 10).length),
       ((al.drop id).take 10).filterMap parse_message) := by
  unfold pollStep
  rw [show xread (some id) bl al = List.enumFrom (id + 1) ((al.drop id).take 10)
    from xread_eq (some id) bl al]
  rw [foldl_enumFrom_all_someD ((al.drop id).take 10) (id + 1) (some id) [] h,
    List.nil_append]
  cases hc : ((al.drop id).take 10).isEmpty with
  | true => simp
  | false =>
    simp only [Bool.false_eq_true, if_false]
    rw [show id + 1 + ((al.drop id).take 10).length - 1 =
      id + ((al.drop id).take 10).length by omega]

/-- C8 (amended): the broadcaster starts with the literal `last_id = "$"`
and each `xread` that still passes `"$"` re-resolves it to the log's end at
call time. Over any schedule of polls whose observed logs all extend the
`pre` entries present at start: (1) no replay — every broadcast decodes an
entry at a position strictly beyond the pre-existing prefix, so none of the
entries present at start is ever delivered; (2) a `"$"` read anchors at the
call-time end, returning only entries appended during that poll's blocking
window — so entries appended between polls before the first successful
broadcast are skipped, and not every entry appended after tailing begins is
delivered; (3) once `last_id` is a concrete id, a poll broadcasts exactly
the decodable entries after that id (up to the batch bound of 10) in log
order and advances `last_id` past them. -/
theorem c8_dollar_cursor (pre : List StreamFields)
    (sched : List (List StreamFields × List StreamFields))
    (hs : ∀ ba ∈ sched, Appends pre ba.1 ∧ Appends ba.1 ba.2) :
    (∀ b ∈ process_messages sched none, ∃ i f, pre.length < i ∧
      parse_message f = some b ∧ ∃ ba ∈ sched, (i, f) ∈ List.enumFrom 1 ba.2) ∧
    (∀ bl al : List StreamFields, xread none bl al =
      List.enumFrom (bl.length + 1) ((al.drop bl.length).take 10)) ∧
    (∀ id : ℕ, ∀ bl al : List StreamFields,
      (∀ f ∈ (al.drop id).take 10, (parse_message f).isSome) →
      pollStep (some id) bl al =
        (if ((al.drop id).take 10).isEmpty then some id
          else some (id + ((al.drop id).take 10).length),
         ((al.drop id).take 10).filterMap parse_message)) :=
  ⟨run_no_replay pre sched none hs trivial,
   fun bl al => xread_eq none bl al,
   fun id bl al h => pollStep_at id bl al h⟩

/-- C8 counterexample: five entries pre-exist at broadcaster start; the
entry with bid_id "6" is appended after the start but before the first
`xread` is issued; that read still passes `"$"`, which resolves to the
then-current end (position 6), so the batch is empty and `last_id` stays
`"$"`; the next poll again anchors at the current end and delivers only the
later entry "7". Entry "6" — appended after tailing began, perfectly
decodable — is never delivered, refuting the claim that every entry appended
after the broadcaster begins tailing is delivered. -/
theorem c8_counterexample :
    process_messages
      [([⟨some "1", some "a", some "1.0", some "t"⟩,
         ⟨some "2", some "b", some "2.0", some "t"⟩,
         ⟨some "3", some "c", some "3.0", some "t"⟩,
         ⟨some "4", some "d", some "4.0", some "t"⟩,
         ⟨some "5", some "e", some "5.0", some "t"⟩,
         ⟨some "6", some "f", some "6.5", some "t"⟩],
        [⟨some "1", some "a", some "1.0", some "t"⟩,
         ⟨some "2", some "b", some "2.0", some "t"⟩,
         ⟨some "3", some "c", some "3.0", some "t"⟩,
         ⟨some "4", some "d", some "4.0", some "t"⟩,
         ⟨some "5", some "e", some "5.0", some "t"⟩,
         ⟨some "6", some "f", some "6.5", some "t"⟩]),
       ([⟨some "1", some "a", some "1.0", some "t"⟩,
         ⟨some "2", some "b", some "2.0", some "t"⟩,
         ⟨some "3", some "c", some "3.0", some "t"⟩,
         ⟨some "4", some "d", some "4.0", some "t"⟩,
         ⟨some "5", some "e", some "5.0", some "t"⟩,
         ⟨some "6", some "f", some "6.5", some "t"⟩],
        [⟨some "1", some "a", some "1.0", some "t"⟩,
         ⟨some "2", some "b", some "2.0", some "t"⟩,
         ⟨some "3", some "c", some "3.0", some "t"⟩,
         ⟨some "4", some "d", some "4.0", some "t"⟩,
         ⟨some "5", some "e", some "5.0", some "t"⟩,
         ⟨some "6", some "f", some "6.5", some "t"⟩,
         ⟨some "7", some "g", some "7.5", some "t"⟩])] none =
      [⟨"7", "g", 15 / 2, "t"⟩] ∧
    (⟨"6", "f", 13 / 2, "t"⟩ : Bid) ∉
      process_messages
        [([⟨some "1", some "a", some "1.0", some "t"⟩,
           ⟨some "2", some "b", some "2.0", some "t"⟩,
           ⟨some "3", some "c", some "3.0", some "t"⟩,
           ⟨some "4", some "d", some "4.0", some "t"⟩,
           ⟨some "5", some "e", some "5.0", some "t"⟩,
           ⟨some "6", some "f", some "6.5", some "t"⟩],
          [⟨some "1", some "a", some "1.0", some "t"⟩,
           ⟨some "2", some "b", some "2.0", some "t"⟩,
           ⟨some "3", some "c", some "3.0", some "t"⟩,
           ⟨some "4", some "d", some "4.0", some "t"⟩,
           ⟨some "5", some "e", some "5.0", some "t"⟩,
           ⟨some "6", some "f", some "6.5", some "t"⟩]),
         ([⟨some "1", some "a", some "1.0", some "t"⟩,
           ⟨some "2", some "b", some "2.0", some "t"⟩,
           ⟨some "3", some "c", some "3.0", some "t"⟩,
           ⟨some "4", some "d", some "4.0", some "t"⟩,
           ⟨some "5", some "e", some "5.0", some "t"⟩,
           ⟨some "6", some "f", some "6.5", some "t"⟩],
          [⟨some "1", some "a", some "1.0", some "t"⟩,
           ⟨some "2", some "b", some "2.0", some "t"⟩,
           ⟨some "3", some "c", some "3.0", some "t"⟩,
           ⟨some "4", some "d", some "4.0", some "t"⟩,
           ⟨some "5", some "e", some "5.0", some "t"⟩,
           ⟨some "6", some "f", some "6.5", some "t"⟩,
           ⟨some "7", some "g", some "7.5", some "t"⟩])] none := by
  constructor
  · decide
  · decide

theorem c8_witness :
    (∃ i f, 5 < i ∧ parse_message f = some ⟨"6", "f", 13 / 2, "t"⟩ ∧
      ∃ ba ∈ ([([⟨some "1", some "a", some "1.0", some "t"⟩,
                ⟨some "2", some "b", some "2.0", some "t"⟩,
                ⟨some "3", some "c", some "3.0", some "t"⟩,
                ⟨some "4", some "d", some "4.0", some "t"⟩,
                ⟨some "5", some "e", some "5.0", some "t"⟩],
               [⟨some "1", some "a", some "1.0", some "t"⟩,
                ⟨some "2", some "b", some "2.0", some "t"⟩,
                ⟨some "3", some "c", some "3.0", some "t"⟩,
                ⟨some "4", some "d", some "4.0", some "t"⟩,
                ⟨some "5", some "e", some "5.0", some "t"⟩,
                ⟨some "6", some "f", some "6.5", some "t"⟩])] :
          List (List StreamFields × List StreamFields)),
        (i, f) ∈ List.enumFrom 1 ba.2) ∧
    xread none
      [⟨some "1", some "a", some "1.0", some "t"⟩,
       ⟨some "2", some "b", some "2.0", some "t"⟩,
       ⟨some "3", some "c", some "3.0", some "t"⟩,
       ⟨some "4", some "d", some "4.0", some "t"⟩,
       ⟨some "5", some "e", some "5.0", some "t"⟩]
      [⟨some "1", some "a", some "1.0", some "t"⟩,
       ⟨some "2", some "b", some "2.0", some "t"⟩,
       ⟨some "3", some "c", some "3.0", some "t"⟩,
       ⟨some "4", some "d", some "4.0", some "t"⟩,
       ⟨some "5", some "e", some "5.0", some "t"⟩,
       ⟨some "6", some "f", some "6.5", some "t"⟩] =
      [(6, ⟨some "6", some "f", some "6.5", some "t"⟩)] ∧
    pollStep (some 6)
      [⟨some "1", some "a", some "1.0", some "t"⟩,
       ⟨some "2", some "b", some "2.0", some "t"⟩,
       ⟨some "3", some "c", some "3.0", some "t"⟩,
       ⟨some "4", some "d", some "4.0", some "t"⟩,
       ⟨some "5", some "e", some "5.0", some "t"⟩,
       ⟨some "6", some "f", some "6.5", some "t"⟩]
      [⟨some "1", some "a", some "1.0", some "t"⟩,
       ⟨some "2", some "b", some "2.0", some "t"⟩,
       ⟨some "3", some "c", some "3.0", some "t"⟩,
       ⟨some "4", some "d", some "4.0", some "t"⟩,
       ⟨some "5", some "e", some "5.0", some "t"⟩,
       ⟨some "6", some "f", some "6.5", some "t"⟩,
       ⟨some "7", some "g", some "7.5", some "t"⟩] =
      (some 7, [⟨"7", "g", 15 / 2, "t"⟩]) := by
  have h := c8_dollar_cursor
    [⟨some "1", some "a", some "1.0", some "t"⟩,
     ⟨some "2", some "b", some "2.0", some "t"⟩,
     ⟨some "3", some "c", some "3.0", some "t"⟩,
     ⟨some "4", some "d", some "4.0", some "t"⟩,
     ⟨some "5", some "e", some "5.0", some "t"⟩]
    [([⟨some "1", some "a", some "1.0", some "t"⟩,
       ⟨some "2", some "b", some "2.0", some "t"⟩,
       ⟨some "3", some "c", some "3.0", some "t"⟩,
       ⟨some "4", some "d", some "4.0", some "t"⟩,
       ⟨some "5", some "e", some "5.0", some "t"⟩],
      [⟨some "1", some "a", some "1.0", some "t"⟩,
       ⟨some "2", some "b", some "2.0", some "t"⟩,
       ⟨some "3", some "c", some "3.0", some "t"⟩,
       ⟨some "4", some "d", some "4.0", some "t"⟩,
       ⟨some "5", some "e", some "5.0", some "t"⟩,
       ⟨some "6", some "f", some "6.5", some "t"⟩])]
    (by decide)
  refine ⟨h.1 ⟨"6", "f", 13 / 2, "t"⟩ (by decide), ?_, ?_⟩
  · rw [h.2.1
      [⟨some "1", some "a", some "1.0", some "t"⟩,
       ⟨some "2", some "b", some "2.0", some "t"⟩,
       ⟨some "3", some "c", some "3.0", some "t"⟩,
       ⟨some "4", some "d", some "4.0", some "t"⟩,
       ⟨some "5", some "e", some "5.0", some "t"⟩]
      [⟨some "1", some "a", some "1.0", some "t"⟩,
       ⟨some "2", some "b", some "2.0", some "t"⟩,
       ⟨some "3", some "c", some "3.0", some "t"⟩,
       ⟨some "4", some "d", some "4.0", some "t"⟩,
       ⟨some "5", some "e", some "5.0", some "t"⟩,
       ⟨some "6", some "f", some "6.5", some "t"⟩]]
    decide
  · rw [h.2.2 6
      [⟨some "1", some "a", some "1.0", some "t"⟩,
       ⟨some "2", some "b", some "2.0", some "t"⟩,
       ⟨some "3", some "c", some "3.0", some "t"⟩,
       ⟨some "4", some "d", some "4.0", some "t"⟩,
       ⟨some "5", some "e", some "5.0", some "t"⟩,
       ⟨some "6", some "f", some "6.5", some "t"⟩]
      [⟨some "1", some "a", some "1.0", some "t"⟩,
       ⟨some "2", some "b", some "2.0", some "t"⟩,
       ⟨some "3", some "c", some "3.0", some "t"⟩,
       ⟨some "4", some "d", some "4.0", some "t"⟩,
       ⟨some "5", some "e", some "5.0", some "t"⟩,
       ⟨some "6", some "f", some "6.5", some "t"⟩,
       ⟨some "7", some "g", some "7.5", some "t"⟩] (by decide)]
    decide


end BidApp
